import Mathlib

/-!
Verification of the sql2meili export pipeline (`sql2meili.py`).

Shallow embedding: the database table contents are modelled as a list of
rows (a row is the column-name → value dictionary produced by `dict(row)`),
the Meilisearch side as the list of `uid`s returned by `get_indexes()`, and
each call to `upload_data_to_index` is recorded as an `UploadCall`.
Python exceptions are modelled with `Except`; the mutation of
`self.indexes` (and, vacuously, of `db_con.tables`) inside
`validate_indexes` is made explicit by returning the final state of both
lists alongside the outcome.
-/

namespace Sql2Meili

/-- A row fetched from the database, after the `dict(row)` conversion:
a finite mapping from column name to (scalar) value, kept as an
association list. -/
abbrev Row := List (String × String)

/-- The part of an introspected SQLAlchemy table the script reads:
its name and the names of its primary-key columns in declaration order
(`tab.primary_key.columns.values()`). -/
structure TableSchema where
  name : String
  primaryKeyCols : List String
deriving Repr, DecidableEq

/-- One call to `MeilisearchConn.upload_data_to_index`: the target index,
the page of documents, and the primary-key field name passed along. -/
structure UploadCall where
  index : String
  data : List Row
  primaryKey : String
deriving Repr, DecidableEq

/-- The two exceptions `validate_indexes` can raise:
`jsonschema.exceptions.ValidationError` when there are more indexes than
tables, and `KeyError` listing the configured indexes absent from the
live Meilisearch instance. -/
inductive ReconcileError where
  | tooManyIndexes : ReconcileError
  | missingIndexes : List String → ReconcileError
deriving Repr, DecidableEq

/-- Logging levels used by the script. -/
inductive LogLevel where
  | info : LogLevel
  | critical : LogLevel
deriving Repr, DecidableEq

/-- One emitted log line. -/
structure LogEntry where
  level : LogLevel
  msg : String
deriving Repr, DecidableEq

/-- Embeds `DatabaseConn.get_primary_key_name`:
`next(map(lambda tab: tab.primary_key.columns.values()[0].name,
filter(lambda tb: tb.name == table_name, self.metadata.sorted_tables)))`.
The lazy `filter`/`next` pair takes the head of the filtered list; a
`StopIteration` (no matching table) or `IndexError` (matching table with
no primary-key column) is modelled as `none`. -/
def get_primary_key_name (sorted_tables : List TableSchema)
    (table_name : String) : Option String :=
  ((sorted_tables.filter (fun tb => tb.name == table_name)).head?).bind
    (fun tab => tab.primaryKeyCols.head?)

/-- Embeds `MeilisearchConn.validate_indexes(db_con)`.
Inputs: `db_con.tables`, the current `self.indexes`, and the list of
`uid`s of the live Meilisearch indexes (`get_indexes()`).
Output: the final state of `(db_con.tables, self.indexes)` — the method
appends to `self.indexes` in place and never writes `db_con.tables` —
together with the outcome (`ok` for a normal return, `error` for a raised
exception). -/
def validate_indexes (tables indexes existing_index_names : List String) :
    (List String × List String) × Except ReconcileError Unit :=
  let diff : Int := (tables.length : Int) - (indexes.length : Int)
  if diff = 0 then
    ((tables, indexes), Except.ok ())
  else if diff < 0 then
    ((tables, indexes), Except.error ReconcileError.tooManyIndexes)
  else
    let indexes2 := indexes ++ tables.drop (tables.length - diff.toNat)
    let indexes_not_present :=
      indexes2.filter (fun idx => !(existing_index_names.contains idx))
    if indexes_not_present.length > 0 then
      ((tables, indexes2), Except.error (ReconcileError.missingIndexes indexes_not_present))
    else
      ((tables, indexes2), Except.ok ())

/-- Embeds the per-table body of `export_tables`: given the table's rows
(`rows`, so `total_size = rows.length`), the target index, the resolved
primary-key name and `max_chunk_size`, produce the sequence of
`upload_data_to_index` calls.  When `total_size < max_chunk_size` the
whole table is fetched as one page; otherwise `chunks =
ceil(total_size / max_chunk_size)` pages are fetched with
`OFFSET chunk * max_chunk_size LIMIT max_chunk_size`.  The Nat ceiling
`(n + c - 1) / c` is `⌈n / c⌉` for `c > 0`. -/
def export_table (rows : List Row) (meili_index : String)
    (primary_key_name : String) (max_chunk_size : Nat) : List UploadCall :=
  let total_size := rows.length
  if total_size < max_chunk_size then
    [⟨meili_index, rows, primary_key_name⟩]
  else
    let chunks := (total_size + max_chunk_size - 1) / max_chunk_size
    (List.range chunks).map (fun chunk =>
      ⟨meili_index, (rows.drop (chunk * max_chunk_size)).take max_chunk_size,
        primary_key_name⟩)

/-- Helper for `export_tables`: processes the table list left to right,
carrying the running position `idx` of `enumerate(db_con.tables)`.
Each iteration resolves the primary key (`get_primary_key_name`, which
can fail) and looks up `meili.indexes[idx]` (out of bounds is failure),
then emits that table's upload calls. -/
def export_tables_go (schemas : List TableSchema) (indexes : List String)
    (rowsOf : String → List Row) (max_chunk_size : Nat) :
    List String → Nat → Option (List UploadCall)
  | [], _ => some []
  | table_name :: rest, idx => do
    let pk ← get_primary_key_name schemas table_name
    let meili_index ← indexes[idx]?
    let tail ← export_tables_go schemas indexes rowsOf max_chunk_size rest (idx + 1)
    pure (export_table (rowsOf table_name) meili_index pk max_chunk_size ++ tail)

/-- Embeds `export_tables(db_con, meili, max_chunk_size)`: iterates
`enumerate(db_con.tables)`, pairing the table at position `idx` with
`meili.indexes[idx]`.  `none` models an uncaught exception (primary-key
lookup exhaustion or an out-of-range index lookup). -/
def export_tables (tables : List String) (indexes : List String)
    (schemas : List TableSchema) (rowsOf : String → List Row)
    (max_chunk_size : Nat) : Option (List UploadCall) :=
  export_tables_go schemas indexes rowsOf max_chunk_size tables 0

/-- Embeds `validate_json(json_data, schema_path)`.  The outcome of
`jsonschema.validate` is passed in as an `Except` (`error e` models a
raised `ValidationError` carrying message `e`).  The function returns
the log lines it emits together with its own outcome: the `except`
block swallows the error after `logging.critical(error)`. -/
def validate_json (validationOutcome : Except String Unit) :
    List LogEntry × Except String Unit :=
  match validationOutcome with
  | Except.ok () => ([], Except.ok ())
  | Except.error e => ([⟨LogLevel.critical, e⟩], Except.ok ())

/-- Concrete rows used to exercise the export on small inputs. -/
def demoRows (n : Nat) : List Row :=
  (List.range n).map (fun i => [("id", toString i)])

/-- Concrete introspected schemas used to exercise the primary-key lookup. -/
def demoSchemas : List TableSchema :=
  [⟨"users", ["id", "email"]⟩, ⟨"posts", ["pid"]⟩]

/-! ### Arithmetic helpers about the `⌈n / c⌉ = (n + c - 1) / c` page count -/

theorem le_ceilDiv_mul (n c : Nat) (hc : 0 < c) : n ≤ ((n + c - 1) / c) * c := by
  have h := Nat.div_add_mod (n + c - 1) c
  have hr : (n + c - 1) % c < c := Nat.mod_lt _ hc
  rw [Nat.mul_comm]
  omega

theorem pred_ceilDiv_mul_lt (n c : Nat) (hc : 0 < c) (hn : 0 < n) :
    (((n + c - 1) / c) - 1) * c < n := by
  have h := Nat.div_add_mod (n + c - 1) c
  have hr : (n + c - 1) % c < c := Nat.mod_lt _ hc
  have h1 : 1 ≤ (n + c - 1) / c := (Nat.one_le_div_iff hc).mpr (by omega)
  have h2 : ((n + c - 1) / c - 1) * c = c * ((n + c - 1) / c) - c := by
    rw [Nat.sub_mul, one_mul, Nat.mul_comm]
  omega

theorem sub_pred_ceilDiv_mul (n c : Nat) (hc : 0 < c) (hcn : c ≤ n) :
    n - (((n + c - 1) / c) - 1) * c = if n % c = 0 then c else n % c := by
  obtain ⟨d, m, hm, hd, hmm⟩ : ∃ d m, m < c ∧ c * d + m = n ∧ n % c = m :=
    ⟨n / c, n % c, Nat.mod_lt _ hc, Nat.div_add_mod n c, rfl⟩
  by_cases h0 : m = 0
  · subst h0
    have hdn : c * d = n := by omega
    have he : n + c - 1 = c * d + (c - 1) := by omega
    have hq : (n + c - 1) / c = d := by
      rw [he, Nat.mul_add_div hc, Nat.div_eq_of_lt (show c - 1 < c by omega), Nat.add_zero]
    have h1 : 1 ≤ d := by
      rcases Nat.eq_zero_or_pos d with h | h
      · rw [h, Nat.mul_zero] at hdn; omega
      · exact h
    have h2 : (d - 1) * c = c * d - c := by rw [Nat.sub_mul, one_mul, Nat.mul_comm]
    have h3 : c * 1 ≤ c * d := Nat.mul_le_mul_left c h1
    rw [hq, hmm, if_pos rfl, h2]
    omega
  · have h4 : c * (d + 1) = c * d + c := by rw [Nat.mul_add, Nat.mul_one]
    have he : n + c - 1 = c * (d + 1) + (m - 1) := by omega
    have hq : (n + c - 1) / c = d + 1 := by
      rw [he, Nat.mul_add_div hc, Nat.div_eq_of_lt (show m - 1 < c by omega), Nat.add_zero]
    have h5 : (d + 1 - 1) * c = c * d := by rw [Nat.add_sub_cancel, Nat.mul_comm]
    rw [hq, h5, hmm, if_neg h0]
    omega

/-! ### Structural helpers about `validate_indexes` and `export_tables_go` -/

theorem validate_indexes_ok_length (tables indexes existing : List String)
    (hok : (validate_indexes tables indexes existing).2 = Except.ok ()) :
    (validate_indexes tables indexes existing).1.2.length = tables.length := by
  by_cases h0 : (tables.length : Int) - (indexes.length : Int) = 0
  · simp only [validate_indexes, if_pos h0]
    omega
  · by_cases h1 : (tables.length : Int) - (indexes.length : Int) < 0
    · simp only [validate_indexes, if_neg h0, if_pos h1] at hok
      exact Except.noConfusion hok
    · have h2 : tables.length - ((tables.length : Int) - (indexes.length : Int)).toNat
          = indexes.length := by omega
      simp only [validate_indexes, if_neg h0, if_neg h1, h2] at hok ⊢
      split at hok
      · exact Except.noConfusion hok
      · rename_i hcond
        rw [if_neg hcond]
        simp only [List.length_append, List.length_drop]
        omega

theorem export_tables_go_isSome (schemas : List TableSchema) (idxs : List String)
    (rowsOf : String → List Row) (c : Nat) :
    ∀ (ts : List String) (start : Nat),
      (∀ t ∈ ts, (get_primary_key_name schemas t).isSome) →
      start + ts.length ≤ idxs.length →
      (export_tables_go schemas idxs rowsOf c ts start).isSome := by
  intro ts
  induction ts with
  | nil =>
    intro start _ _
    simp [export_tables_go]
  | cons t rest ih =>
    intro start hpk hlen
    obtain ⟨pk, hpke⟩ :=
      Option.isSome_iff_exists.mp (hpk t (List.mem_cons_self t rest))
    have hidx : start < idxs.length := by
      simp only [List.length_cons] at hlen
      omega
    have hmie : idxs[start]? = some idxs[start] := List.getElem?_eq_getElem hidx
    obtain ⟨tail, htl⟩ := Option.isSome_iff_exists.mp
      (ih (start + 1) (fun x hx => hpk x (List.mem_cons_of_mem _ hx))
        (by simp only [List.length_cons] at hlen; omega))
    simp [export_tables_go, hpke, hmie, htl]

/-! ### Claims -/

/-- Claim C1.  The claim says the index-existence check runs on every
reconciliation call, including `len(tables) == len(indexes)`, and fails
whenever a configured index is absent from the live system.  The code
returns early when `diff == 0`, skipping the check: with
`tables = ["a"]`, `indexes = ["ghost"]` and live indexes `["a"]`,
`validate_indexes` returns successfully and leaves `"ghost"` unreported
even though `"ghost"` is not a live index.  This contradicts the
function's own docstring, which states it checks that all configured
indexes exist in the Meilisearch instance. -/
theorem C1_equal_counts_skip_existence_check :
    validate_indexes ["a"] ["ghost"] ["a"]
      = ((["a"], ["ghost"]), Except.ok ()) ∧
    "ghost" ∉ (["a"] : List String) := by
  exact ⟨rfl, by decide⟩

/-- Claim C2, counterexample.  The claim says a table with
`total_size == 0` issues zero pages and no upload calls.  In the code,
`total_size == 0` satisfies `total_size < max_chunk_size`, so the
single-page branch runs and `upload_data_to_index` is called once with
an empty document list: at `rows = []`, `chunk size 5000`, export makes
exactly one upload call, not zero. -/
theorem C2_counterexample :
    ([] : List Row).length = 0 ∧
    export_table ([] : List Row) "idx" "id" 5000 = [⟨"idx", [], "id"⟩] ∧
    (export_table ([] : List Row) "idx" "id" 5000).length ≠ 0 := by
  exact ⟨rfl, rfl, by decide⟩

/-- Claim C2, amended.  For every table with `total_size = 0` and
`chunk_size > 0`, export issues exactly one page containing zero rows —
a single `upload_data_to_index` call with an empty document list — so
zero rows are uploaded, and this is not an error. -/
theorem C2_empty_table_single_empty_upload (mi pk : String) (c : Nat)
    (hc : 0 < c) :
    export_table ([] : List Row) mi pk c = [⟨mi, [], pk⟩] ∧
    (export_table ([] : List Row) mi pk c).map (fun u => u.data.length) = [0] := by
  constructor <;> simp [export_table, hc]

/-- Claim C2, witness for the amended theorem at `chunk_size = 5000`. -/
theorem C2_empty_table_witness :
    export_table ([] : List Row) "tbl" "key" 5000 = [⟨"tbl", [], "key"⟩] ∧
    (export_table ([] : List Row) "tbl" "key" 5000).map (fun u => u.data.length)
      = [0] :=
  C2_empty_table_single_empty_upload "tbl" "key" 5000 (by decide)

/-- Claim C3.  A configuration document that fails schema validation
(`jsonschema.validate` raises a `ValidationError` carrying message `e`)
is logged at critical level, and `validate_json` returns normally: the
failure is swallowed, so the run continues. -/
theorem C3_validation_failure_logged_not_raised (e : String) :
    validate_json (Except.error e)
      = ([⟨LogLevel.critical, e⟩], Except.ok ()) := rfl

/-- Claim C5.  When `len(tables)` exceeds `len(indexes)`, reconciliation
appends exactly the trailing `k = len(tables) - len(indexes)` table
names, in order, to the index list: the final index list is the original
list followed by `tables.drop indexes.length`, its length equals the
table list's, its original front segment is unchanged, and its last `k`
entries are the last `k` table names. -/
theorem C5_trailing_tables_self_name (tables indexes existing : List String)
    (h : indexes.length < tables.length) :
    (validate_indexes tables indexes existing).1.2
        = indexes ++ tables.drop indexes.length ∧
    (validate_indexes tables indexes existing).1.2.length = tables.length ∧
    (validate_indexes tables indexes existing).1.2.take indexes.length = indexes ∧
    (validate_indexes tables indexes existing).1.2.drop indexes.length
        = tables.drop indexes.length := by
  have h0 : ¬ ((tables.length : Int) - (indexes.length : Int) = 0) := by omega
  have h1 : ¬ ((tables.length : Int) - (indexes.length : Int) < 0) := by omega
  have h2 : tables.length - ((tables.length : Int) - (indexes.length : Int)).toNat
      = indexes.length := by omega
  have hmain : (validate_indexes tables indexes existing).1.2
      = indexes ++ tables.drop indexes.length := by
    simp only [validate_indexes, if_neg h0, if_neg h1, h2]
    split <;> rfl
  refine ⟨hmain, ?_, ?_, ?_⟩
  · rw [hmain]
    simp only [List.length_append, List.length_drop]
    omega
  · rw [hmain, List.take_append_of_le_length (Nat.le_refl _), List.take_length]
  · rw [hmain, List.drop_append_of_le_length (Nat.le_refl _), List.drop_length,
      List.nil_append]

/-- Claim C5, witness: `tables = [A, B, C]`, `indexes = [A]` — the two
trailing tables self-name their indexes and the final list is
`[A, B, C]`. -/
theorem C5_witness :
    (validate_indexes ["A", "B", "C"] ["A"] ["A", "B", "C"]).1.2
      = ["A", "B", "C"] := by
  rw [(C5_trailing_tables_self_name ["A", "B", "C"] ["A"] ["A", "B", "C"]
    (by decide)).1]
  rfl

/-- Claim C6.  When `len(indexes) > len(tables)`, reconciliation raises
the too-many-indexes error, and both the table list and the index list
are returned exactly as given: nothing is mutated on this path. -/
theorem C6_too_many_indexes_no_mutation (tables indexes existing : List String)
    (h : tables.length < indexes.length) :
    validate_indexes tables indexes existing
      = ((tables, indexes), Except.error ReconcileError.tooManyIndexes) := by
  have h0 : ¬ ((tables.length : Int) - (indexes.length : Int) = 0) := by omega
  have h1 : (tables.length : Int) - (indexes.length : Int) < 0 := by omega
  simp only [validate_indexes, if_neg h0, if_pos h1]

/-- Claim C6, witness: `tables = [A]`, `indexes = [A, B]`. -/
theorem C6_witness :
    validate_indexes ["A"] ["A", "B"] ["A", "B"]
      = (((["A"] : List String), (["A", "B"] : List String)),
          Except.error ReconcileError.tooManyIndexes) :=
  C6_too_many_indexes_no_mutation ["A"] ["A", "B"] ["A", "B"] (by decide)

/-- Claim C7.  The primary-key lookup returns the first declared
primary-key column of the first table whose name matches the given name
exactly, and returns no value when no table in the collection has that
exact name (the source's `next` over an exhausted iterator). -/
theorem C7_primary_key_lookup (schemas : List TableSchema) (table_name : String) :
    (∀ t pk rest,
        schemas.find? (fun tb => tb.name == table_name) = some t →
        t.primaryKeyCols = pk :: rest →
        get_primary_key_name schemas table_name = some pk) ∧
    ((∀ t ∈ schemas, t.name ≠ table_name) →
        get_primary_key_name schemas table_name = none) := by
  constructor
  · intro t pk rest hfind hpk
    unfold get_primary_key_name
    rw [List.filter_head?, hfind]
    simp [hpk]
  · intro hno
    unfold get_primary_key_name
    rw [List.filter_head?, List.find?_eq_none.mpr]
    · rfl
    · intro x hx
      simpa using hno x hx

/-- Claim C7, witness: on `demoSchemas` the lookup of `"users"` yields
its first primary-key column `"id"`, and the lookup of an absent table
name yields nothing. -/
theorem C7_witness :
    get_primary_key_name demoSchemas "users" = some "id" ∧
    get_primary_key_name demoSchemas "ghost" = none := by
  constructor
  · exact (C7_primary_key_lookup demoSchemas "users").1
      ⟨"users", ["id", "email"]⟩ "id" ["email"] (by decide) rfl
  · exact (C7_primary_key_lookup demoSchemas "ghost").2 (by decide)

/-- Claim C8.  The sequence of upsert calls produced by exporting a
table is a deterministic function of the source rows, the target index,
the primary key and the chunk size: two runs on equal inputs produce
equal call sequences (same pages, same documents, same primary-key
field). -/
theorem C8_export_deterministic (rows1 rows2 : List Row)
    (mi1 mi2 pk1 pk2 : String) (c1 c2 : Nat)
    (hrows : rows1 = rows2) (hmi : mi1 = mi2) (hpk : pk1 = pk2)
    (hc : c1 = c2) :
    export_table rows1 mi1 pk1 c1 = export_table rows2 mi2 pk2 c2 := by
  rw [hrows, hmi, hpk, hc]

/-- Claim C8, witness: two runs over the same five rows coincide. -/
theorem C8_witness :
    export_table (demoRows 5) "A" "id" 2 = export_table (demoRows 5) "A" "id" 2 :=
  C8_export_deterministic (demoRows 5) (demoRows 5) "A" "A" "id" "id" 2 2
    rfl rfl rfl rfl

/-- Claim C9.  When `len(tables) > len(indexes)` and the extended index
list has at least one name absent from the live index set, reconciliation
fails with the missing-indexes error, but only after the trailing table
names have already been appended to the caller's index list, and the
extension is not undone: the returned index-list state is the original
list followed by the appended table names. -/
theorem C9_missing_error_keeps_extension (tables indexes existing : List String)
    (hlen : indexes.length < tables.length)
    (hmiss : ((indexes ++ tables.drop indexes.length).filter
        (fun i => !(existing.contains i))) ≠ []) :
    validate_indexes tables indexes existing
      = ((tables, indexes ++ tables.drop indexes.length),
          Except.error (ReconcileError.missingIndexes
            ((indexes ++ tables.drop indexes.length).filter
              (fun i => !(existing.contains i))))) := by
  have h0 : ¬ ((tables.length : Int) - (indexes.length : Int) = 0) := by omega
  have h1 : ¬ ((tables.length : Int) - (indexes.length : Int) < 0) := by omega
  have h2 : tables.length - ((tables.length : Int) - (indexes.length : Int)).toNat
      = indexes.length := by omega
  have hpos : 0 < ((indexes ++ tables.drop indexes.length).filter
      (fun i => !(existing.contains i))).length := List.length_pos.mpr hmiss
  simp only [validate_indexes, if_neg h0, if_neg h1, h2, if_pos hpos]

/-- Claim C9, witness: `tables = [A, B]`, `indexes = [A]`, live indexes
`[A]` — the appended `B` is missing, the error lists it, and the
returned index list is the extended `[A, B]`. -/
theorem C9_witness :
    validate_indexes ["A", "B"] ["A"] ["A"]
      = (((["A", "B"] : List String), (["A", "B"] : List String)),
          Except.error (ReconcileError.missingIndexes ["B"])) := by
  rw [C9_missing_error_keeps_extension ["A", "B"] ["A"] ["A"]
    (by decide) (by decide)]
  rfl

/-- Claim C10.  Whenever `validate_indexes` returns without error, the
final index list is at least as long as the table list, so the positional
lookup `meili.indexes[idx]` performed by `export_tables` is in bounds for
every configured table: given resolvable primary keys, the whole export
run performs no out-of-bounds index access. -/
theorem C10_success_keeps_export_in_bounds
    (tables indexes existing : List String) (schemas : List TableSchema)
    (rowsOf : String → List Row) (c : Nat)
    (hok : (validate_indexes tables indexes existing).2 = Except.ok ())
    (hpk : ∀ t ∈ tables, (get_primary_key_name schemas t).isSome) :
    tables.length ≤ (validate_indexes tables indexes existing).1.2.length ∧
    (export_tables tables (validate_indexes tables indexes existing).1.2
        schemas rowsOf c).isSome := by
  have hlen := validate_indexes_ok_length tables indexes existing hok
  refine ⟨by omega, ?_⟩
  exact export_tables_go_isSome schemas _ rowsOf c tables 0 hpk (by omega)

/-- Claim C10, witness: a successful reconciliation (equal counts)
followed by an export over the reconciled index list succeeds. -/
theorem C10_witness :
    (export_tables ["users"] (validate_indexes ["users"] ["users"] ["users"]).1.2
        demoSchemas (fun _ => demoRows 1) 2).isSome :=
  (C10_success_keeps_export_in_bounds ["users"] ["users"] ["users"]
    demoSchemas (fun _ => demoRows 1) 2 rfl (by decide)).2

/-- Claim C4.  For a table with `total_size > 0` and `chunk_size > 0`:
when `total_size < chunk_size`, export issues exactly one page holding
all rows; when `total_size ≥ chunk_size`, it issues exactly
`⌈total_size / chunk_size⌉` pages, page `k` being the rows at offset
`k * chunk_size` limited to `chunk_size`, every page but the last of
size `chunk_size`, and the last of size `total_size mod chunk_size`
(or `chunk_size` when the division is exact). -/
theorem C4_page_layout (rows : List Row) (mi pk : String) (c : Nat)
    (hn : 0 < rows.length) (hc : 0 < c) :
    (rows.length < c → export_table rows mi pk c = [⟨mi, rows, pk⟩]) ∧
    (c ≤ rows.length →
      (export_table rows mi pk c).length = (rows.length + c - 1) / c ∧
      (∀ k, k < (rows.length + c - 1) / c →
        (export_table rows mi pk c)[k]? =
          some ⟨mi, (rows.drop (k * c)).take c, pk⟩) ∧
      (∀ k, k + 1 < (rows.length + c - 1) / c →
        ((rows.drop (k * c)).take c).length = c) ∧
      ((rows.drop ((((rows.length + c - 1) / c) - 1) * c)).take c).length =
        (if rows.length % c = 0 then c else rows.length % c)) := by
  constructor
  · intro h
    simp [export_table, h]
  · intro hcle
    have hnotlt : ¬ rows.length < c := Nat.not_lt.mpr hcle
    have hunf : export_table rows mi pk c =
        (List.range ((rows.length + c - 1) / c)).map (fun chunk =>
          ⟨mi, (rows.drop (chunk * c)).take c, pk⟩) := by
      simp [export_table, hnotlt]
    refine ⟨?_, ?_, ?_, ?_⟩
    · rw [hunf]
      simp
    · intro k hk
      rw [hunf]
      simp [List.getElem?_range hk]
    · intro k hk
      have h1 : (k + 1) * c ≤ ((rows.length + c - 1) / c - 1) * c :=
        Nat.mul_le_mul_right c (by omega)
      have h2 := pred_ceilDiv_mul_lt rows.length c hc hn
      have h3 : (k + 1) * c = k * c + c := Nat.succ_mul k c
      simp only [List.length_take, List.length_drop]
      exact Nat.min_eq_left (Nat.le_sub_of_add_le (by omega))
    · have hA := le_ceilDiv_mul rows.length c hc
      have hq1 : 1 ≤ (rows.length + c - 1) / c :=
        (Nat.one_le_div_iff hc).mpr (by omega)
      have h5 : (((rows.length + c - 1) / c) - 1) * c + c
          = ((rows.length + c - 1) / c) * c := by
        have he : ((rows.length + c - 1) / c - 1) + 1 = (rows.length + c - 1) / c := by
          omega
        calc (((rows.length + c - 1) / c) - 1) * c + c
            = ((((rows.length + c - 1) / c) - 1) + 1) * c := (Nat.succ_mul _ _).symm
          _ = ((rows.length + c - 1) / c) * c := by rw [he]
      simp only [List.length_take, List.length_drop]
      rw [Nat.min_eq_right (by omega)]
      exact sub_pred_ceilDiv_mul rows.length c hc hcle

/-- Claim C4, witness: a 5-row table with `chunk_size = 2` yields 3 pages;
page 2 (the last) is the rows at offset 4 limited to 2, and its size is
`5 mod 2 = 1`. -/
theorem C4_witness :
    (export_table (demoRows 5) "A" "id" 2).length = 3 ∧
    (export_table (demoRows 5) "A" "id" 2)[2]? =
      some ⟨"A", ((demoRows 5).drop 4).take 2, "id"⟩ ∧
    (((demoRows 5).drop 4).take 2).length = 1 := by
  have h := (C4_page_layout (demoRows 5) "A" "id" 2 (by decide) (by decide)).2
    (by decide)
  refine ⟨?_, ?_, ?_⟩
  · rw [h.1]
    rfl
  · have h2 := h.2.1 2 (by decide)
    rw [h2]
  · have h3 := h.2.2.2
    rw [show ((((demoRows 5).length + 2 - 1) / 2 - 1) * 2) = 4 from by decide] at h3
    rw [h3]
    decide

end Sql2Meili
